import Mathlib

/-!
Verification of the golang-url-crawler repository (src/url-scan.go, with the
near-duplicate variant src/unnamed/part_000).

The development shallowly embeds the crawler: pure Go helpers become Lean
functions over strings (represented as lists of characters), the network and
the parsed document tree become explicit oracles, and the single-worker crawl
loop becomes a step function on an explicit crawl state.  The Go standard
library package net/url, which the source calls for parsing and reference
resolution, is modelled after its documented RFC 3986 behaviour for the
fragment the crawler exercises: scheme extraction, the authority component
(userinfo, host, with the query and fragment folded into the path tail), and
relative reference resolution without dot-segment normalisation.  Exotic
parse failures of net/url (control characters, invalid percent escapes,
invalid ports) are not modelled; the only modelled parse error is a leading
colon (Go reports missing protocol scheme there), which is the behaviour the
crawler can observe on the inputs this development quantifies over.
-/

namespace UrlCrawler

/-- Characters Go net/url accepts inside a scheme after the first letter. -/
def schemeChar (c : Char) : Bool :=
  c.isAlpha || c.isDigit || c = '+' || c = '-' || c = '.'

/-- A valid scheme is a letter followed by scheme characters, as in Go getScheme. -/
def validScheme (cs : List Char) : Bool :=
  match cs with
  | [] => false
  | c :: rest => c.isAlpha && rest.all schemeChar

/-- Characters that terminate the authority component of a URL. -/
def authTerm (c : Char) : Bool :=
  c = '/' || c = '?' || c = '#'

/-- Predicate for scanning up to the first colon of a candidate scheme. -/
def notColon (c : Char) : Bool := !(c = ':')

/-- Predicate for scanning the authority component. -/
def notAuthTerm (c : Char) : Bool := !(authTerm c)

/-- A parsed URL in the model of Go net/url.  The query and fragment are kept
inside `path`, which holds the raw remainder after the authority. -/
structure URLc where
  scheme : List Char
  hasAuth : Bool
  userinfo : List Char
  host : List Char
  path : List Char
deriving DecidableEq, Repr

/-- Split an authority into userinfo (up to and including the last at sign,
empty when absent) and host, as Go net/url does. -/
def splitUserinfo (auth : List Char) : List Char × List Char :=
  ((auth.reverse.dropWhile (fun c => !(c = '@'))).reverse,
   (auth.reverse.takeWhile (fun c => !(c = '@'))).reverse)

/-- Parse of everything after the scheme: an authority when the remainder
starts with two slashes, otherwise an opaque or rootless remainder. -/
def parseAfterScheme (sch rest : List Char) : URLc :=
  if rest.take 2 = ['/', '/'] then
    let after := rest.drop 2
    let auth := after.takeWhile notAuthTerm
    let path := after.dropWhile notAuthTerm
    let ui := splitUserinfo auth
    ⟨sch, true, ui.1, ui.2, path⟩
  else
    ⟨sch, false, [], [], rest⟩

/-- Model of Go net/url Parse on the character level.  Returns none exactly
for a leading colon (missing protocol scheme); an invalid candidate scheme
falls back to treating the whole input as a path, as Go does. -/
def parseChars (cs : List Char) : Option URLc :=
  match cs.dropWhile notColon with
  | [] => some (parseAfterScheme [] cs)
  | _ :: rest =>
    let pre := cs.takeWhile notColon
    if pre = [] then none
    else if validScheme pre then some (parseAfterScheme pre rest)
    else some (parseAfterScheme [] cs)

/-- Serialisation of a parsed URL back to characters, modelling URL String. -/
def serializeChars (p : URLc) : List Char :=
  (if p.scheme = [] then [] else p.scheme ++ [':'])
    ++ (if p.hasAuth then '/' :: '/' :: (p.userinfo ++ p.host) else [])
    ++ p.path

/-- String-level entry point of the net/url Parse model. -/
def parseURL (s : String) : Option URLc := parseChars s.data

/-- Model of Go strings.HasSuffix applied to a parsed host. -/
def hostHasSuffix (host : List Char) (scope : String) : Bool :=
  scope.data.isSuffixOf host

/-- Model of Go strings.HasSuffix on strings. -/
def strHasSuffix (s suf : String) : Bool :=
  suf.data.isSuffixOf s.data

/-- Model of Go strings.HasPrefix on strings. -/
def strStarts (s pre : String) : Bool :=
  pre.data.isPrefixOf s.data

/-- Translation of isValidURL (src/url-scan.go lines 246-249): the regular
expression anchored https?:// tests exactly for one of these two prefixes. -/
def isValidURL (u : String) : Bool :=
  strStarts u "http://" || strStarts u "https://"

/-- Translation of isInScope (src/url-scan.go lines 251-270): parse the URL,
return false on parse error; return true on the first inScope suffix match of
the host; otherwise return false on the first outScope suffix match;
otherwise return whether inScope is empty. -/
def isInScope (inScopeList outScopeList : List String) (u : String) : Bool :=
  match parseURL u with
  | none => false
  | some p =>
    if inScopeList.any (fun sc => hostHasSuffix p.host sc) then true
    else if outScopeList.any (fun sc => hostHasSuffix p.host sc) then false
    else inScopeList.isEmpty

/-- Translation of the codeExtensions list (src/url-scan.go lines 164-168). -/
def codeExtensions : List String :=
  [".js", ".jsp", ".xml", ".html", ".htm", ".php", ".asp", ".aspx", ".css", ".json",
   ".txt", ".md", ".yaml", ".csv", ".doc", ".docx", ".pdf", ".ppt", ".pptx", ".xls",
   ".xlsx", ".ts", ".py", ".rb", ".java", ".c", ".h", ".cs", ".swift", ".kt",
   ".pl", ".sh", ".bat", ".go"]

/-- Translation of isCodeFile (src/url-scan.go lines 163-176). -/
def isCodeFile (u : String) : Bool :=
  codeExtensions.any (fun ext => strHasSuffix u ext)

/-- Model of Go strings.Split on a comma separator, as used by main
(src/url-scan.go lines 326-327): splitting the empty string yields a single
empty entry. -/
def splitCommaChars : List Char → List Char → List (List Char)
  | [], acc => [acc.reverse]
  | c :: cs, acc =>
    if c = ',' then acc.reverse :: splitCommaChars cs [] else splitCommaChars cs (c :: acc)

/-- The scope list main builds from a command line flag value. -/
def scopeListOfFlag (v : String) : List String :=
  (splitCommaChars v.data []).map String.mk

/-- Characters admitted by the character class of the script URL regular
expression https?://[^bslash-s quote quote]+ : everything except ASCII
whitespace, the double quote and the single quote. -/
def scriptURLChar (c : Char) : Bool :=
  !(c = ' ' || c = '\t' || c = '\n' || c = '\x0c' || c = '\r' || c = '"' || c = '\x27')

/-- One leftmost match attempt of the script URL regular expression at the
current position: a literal http:// or https:// prefix followed by a nonempty
run of admitted characters.  Returns the match and the rest of the input. -/
def tryMatchURL (cs : List Char) : Option (List Char × List Char) :=
  let tryAfter : List Char → List Char → Option (List Char × List Char) :=
    fun pre rest =>
      match rest.takeWhile scriptURLChar with
      | [] => none
      | run => some (pre ++ run, rest.dropWhile scriptURLChar)
  if cs.take 8 = "https://".data then tryAfter "https://".data (cs.drop 8)
  else if cs.take 7 = "http://".data then tryAfter "http://".data (cs.drop 7)
  else none

/-- Fuelled scanner implementing FindAllString of the script URL regular
expression: leftmost, non-overlapping matches.  Each step consumes at least
one character, so fuel equal to the input length suffices. -/
def scanURLs : Nat → List Char → List (List Char)
  | 0, _ => []
  | _ + 1, [] => []
  | n + 1, c :: cs =>
    match tryMatchURL (c :: cs) with
    | some (url, rest) => url :: scanURLs n rest
    | none => scanURLs n cs

/-- Translation of the regular expression extraction in extractURLsFromScript
(src/url-scan.go lines 193-194): all absolute http or https substrings of a
text body. -/
def findURLs (body : String) : List String :=
  (scanURLs body.data.length body.data).map String.mk

/-- Result of one Go http Client Do call: a transport error, or a response
carrying a status code with a nil error. -/
inductive DoResult where
  | failure : DoResult
  | response : Nat → DoResult
deriving DecidableEq, Repr

/-- The network as an oracle mapping a request URL to the result of Do. -/
structure Net where
  doReq : String → DoResult

/-- What fetchURL returns to its caller: a non-nil error, or a response with
a status code and a nil error. -/
inductive FetchResult where
  | err : FetchResult
  | resp : Nat → FetchResult
deriving DecidableEq, Repr

/-- The success test of the first attempt in fetchURL (src/url-scan.go line
218): nil error and status 200. -/
def isOK : DoResult → Bool
  | .failure => false
  | .response st => st = 200

/-- Model of the scheme flip in fetchURL (src/url-scan.go lines 222-227):
parse, set the scheme to https when it was http and to http otherwise, and
serialise.  On a parse error the Go code would dereference nil; the model
returns the input unchanged (the claims only quantify over parseable URLs). -/
def flipScheme (u : String) : String :=
  match parseURL u with
  | none => u
  | some p =>
    String.mk (serializeChars
      { p with scheme := if p.scheme = "http".data then "https".data else "http".data })

/-- Translation of fetchURL (src/url-scan.go lines 208-231): one request; if
it errored or its status is not 200, exactly one retry with the scheme
flipped, whose result is returned as is. -/
def fetchURL (net : Net) (u : String) : FetchResult :=
  if isOK (net.doReq u) then .resp 200
  else
    match net.doReq (flipScheme u) with
    | .failure => .err
    | .response st => .resp st

/-- The request URLs fetchURL attempts, in order. -/
def fetchAttempts (net : Net) (u : String) : List String :=
  if isOK (net.doReq u) then [u] else [u, flipScheme u]

/-- The directory of a path: everything up to and including the last slash,
as merged by RFC 3986 section 5.3.3 and Go resolvePath. -/
def dirOf (bp : List Char) : List Char :=
  (bp.reverse.dropWhile (fun c => !(c = '/'))).reverse

/-- Model of Go URL ResolveReference (RFC 3986 section 5.3) for the fragment
the crawler exercises, without dot-segment normalisation and with the query
and fragment folded into the path. -/
def resolveReference (base ref : URLc) : URLc :=
  if ref.scheme ≠ [] then ref
  else if ref.hasAuth then { ref with scheme := base.scheme }
  else if ref.path = [] then base
  else if ref.path.take 1 = ['/'] then { base with path := ref.path }
  else { base with path := dirOf base.path ++ ref.path }

/-- Translation of formatURL (src/url-scan.go lines 233-244): return the
candidate unchanged when it fails to parse or is already absolute, or when
the base fails to parse; otherwise resolve against the base and serialise. -/
def formatURL (base href : String) : String :=
  match parseURL href with
  | none => href
  | some u =>
    if u.scheme ≠ [] then href
    else
      match parseURL base with
      | none => href
      | some b => String.mk (serializeChars (resolveReference b u))

/-- The scope policy fields of the Crawler struct (src/url-scan.go lines
24-25). -/
structure ScopeCfg where
  inScopeList : List String
  outScopeList : List String

/-- External world of one crawl, as oracles: fetch gives the body of a URL
when fetchURL succeeded with status 200 and the body was readable (none
covers a transport error, a non-200 status and a read error); parseOK tells
whether html.Parse succeeded on that body; links is the candidate list that
extractLinks produces from the parsed document of the page (already resolved
against the page URL by formatURL during the tree walk). -/
structure Web where
  fetch : String → Option String
  parseOK : String → Bool
  links : String → List String

/-- The mutable crawl state of one run: the Visited map, the pending Queue,
and observation logs — the page fetches attempted, every enqueue of a
discovered URL, and the records emitted to the output channels in order
(the Boolean is true for the in-scope channel). -/
structure CrawlState where
  visited : List String
  queue : List String
  fetched : List String
  enqueues : List String
  output : List (Bool × String)
deriving DecidableEq, Repr

/-- Crawl state at start: the queue holds exactly the start URL
(src/url-scan.go line 47). -/
def initState (startURL : String) : CrawlState :=
  ⟨[], [startURL], [], [], []⟩

/-- One emission step of the loop in extractURLsFromScript (src/url-scan.go
lines 196-205): classify the found URL and send it to the matching channel.
No validation and no enqueue happens here. -/
def scriptEmit (cfg : ScopeCfg) (st : CrawlState) (u : String) : CrawlState :=
  if isInScope cfg.inScopeList cfg.outScopeList u then
    { st with output := st.output ++ [(true, "In-scope: " ++ u)] }
  else
    { st with output := st.output ++ [(false, "Out-Of-Scope: " ++ u)] }

/-- Translation of extractURLsFromScript (src/url-scan.go lines 178-206):
fetch the script URL; on failure return unchanged; otherwise emit one record
per URL found in the body by the regular expression. -/
def extractURLsFromScript (cfg : ScopeCfg) (w : Web) (st : CrawlState)
    (scriptURL : String) : CrawlState :=
  match w.fetch scriptURL with
  | none => st
  | some body => (findURLs body).foldl (scriptEmit cfg) st

/-- Translation of the candidate loop body of processURL (src/url-scan.go
lines 88-104): validate; when valid classify, emit and — only when in scope —
enqueue unconditionally; independently run the script extraction when the
candidate looks like a code file. -/
def handleCandidate (cfg : ScopeCfg) (w : Web) (st : CrawlState) (u : String) :
    CrawlState :=
  let st1 :=
    if isValidURL u then
      if isInScope cfg.inScopeList cfg.outScopeList u then
        { st with output := st.output ++ [(true, "In-scope: " ++ u)],
                  queue := st.queue ++ [u],
                  enqueues := st.enqueues ++ [u] }
      else
        { st with output := st.output ++ [(false, "Out-Of-Scope: " ++ u)] }
    else st
  if isCodeFile u then extractURLsFromScript cfg w st1 u else st1

/-- Translation of processURL (src/url-scan.go lines 64-106): the check and
set on the Visited map under the mutex, then the page fetch, the HTML parse,
and the candidate loop.  The fetch attempt is logged whether or not it
succeeds; a fetch or parse failure returns with nothing emitted or enqueued. -/
def processURL (cfg : ScopeCfg) (w : Web) (st : CrawlState) (pageURL : String) :
    CrawlState :=
  if pageURL ∈ st.visited then st
  else
    let st1 := { st with visited := pageURL :: st.visited,
                         fetched := st.fetched ++ [pageURL] }
    match w.fetch pageURL with
    | none => st1
    | some _ =>
      if w.parseOK pageURL then (w.links pageURL).foldl (handleCandidate cfg w) st1
      else st1

/-- The single-worker loop (src/url-scan.go lines 57-62): dequeue and process
until the queue is empty or the fuel runs out. -/
def crawlSteps (cfg : ScopeCfg) (w : Web) : Nat → CrawlState → CrawlState
  | 0, st => st
  | n + 1, st =>
    match st.queue with
    | [] => st
    | u :: rest => crawlSteps cfg w n (processURL cfg w { st with queue := rest } u)

/-- A whole crawl from a start URL. -/
def crawl (cfg : ScopeCfg) (w : Web) (startURL : String) (fuel : Nat) : CrawlState :=
  crawlSteps cfg w fuel (initState startURL)

/-- Translation of writeToFiles (src/url-scan.go lines 272-312) as a pure
function from the two channel streams to the two files, each a list of lines:
a fixed header line, then one line per record received on that channel, in
order.  The input is the merged emission log; the Boolean tag tells which
channel a record was sent to. -/
def writeToFiles (records : List (Bool × String)) : List String × List String :=
  ("--IN SCOPE URLS:---" :: (records.filter (fun r => r.1)).map (fun r => r.2),
   "--OUT OF SCOPE URLS:---" :: (records.filter (fun r => !r.1)).map (fun r => r.2))

/-- Translation of writeToFile of the part_000 variant (src/unnamed/part_000
lines 263-289) as a pure function from the single output channel stream to
the single file: the in-scope header, then the records with the In-scope
prefix — the first range loop consumes the whole channel — then the
out-of-scope header; the second range loop iterates the already drained and
closed channel, so nothing follows. -/
def writeToFile (records : List String) : List String :=
  "--IN SCOPE URLS:---" ::
    ((records.filter (fun r => strStarts r "In-scope")) ++ ["--OUT OF SCOPE URLS:---"])

/-- The critical section at the top of processURL (src/url-scan.go lines
65-71) as one atomic operation: nothing else touches the Visited map, so any
interleaving of workers linearises to a sequence of these events. -/
def checkAndSet (visited : List String) (u : String) : Bool × List String :=
  if u ∈ visited then (false, visited) else (true, u :: visited)

/-- The URLs that reach the page fetch when the given sequence of processURL
invocations runs against a Visited map with the given initial content: an
invocation proceeds exactly when its checkAndSet returns true. -/
def fetchedOf : List String → List String → List String
  | _, [] => []
  | visited, u :: evs =>
    let r := checkAndSet visited u
    if r.1 then u :: fetchedOf r.2 evs else fetchedOf r.2 evs

/-- The record extractURLsFromScript emits for one URL found in a script body. -/
def scriptTag (cfg : ScopeCfg) (u : String) : Bool × String :=
  if isInScope cfg.inScopeList cfg.outScopeList u then (true, "In-scope: " ++ u)
  else (false, "Out-Of-Scope: " ++ u)

/-- The invariant tying the fetch log to the Visited map: every page fetch was
preceded by its insertion into Visited, and no page was fetched twice. -/
def CrawlInv (st : CrawlState) : Prop :=
  ∀ u, (u ∈ st.fetched → u ∈ st.visited) ∧ st.fetched.count u ≤ 1

/-- Structural facts every parsed URL satisfies, enough to reparse its
serialisation. -/
def AuthWF (p : URLc) : Prop :=
  (p.hasAuth = true →
     (p.userinfo = [] ∨ ∃ l, p.userinfo = l ++ ['@']) ∧
     (∀ c ∈ p.userinfo, notAuthTerm c = true) ∧
     (∀ c ∈ p.host, notAuthTerm c = true) ∧
     (∀ c ∈ p.host, c ≠ '@') ∧
     (p.path = [] ∨ ∃ c cs, p.path = c :: cs ∧ authTerm c = true)) ∧
  (p.hasAuth = false → p.userinfo = [] ∧ p.host = [] ∧ p.path.take 2 ≠ ['/', '/'])


/-- A scope policy used by the concrete crawl scenarios: inScope a.com, no
outScope entries. -/
def cfgA : ScopeCfg := ⟨["a.com"], []⟩

/-- A three page site: the start page links to two pages that both link to
the same third page. -/
def web3 : Web :=
  ⟨fun _ => some "page",
   fun _ => true,
   fun u =>
     if u = "http://a.com/" then ["http://a.com/p1", "http://a.com/p2"]
     else if u = "http://a.com/p1" then ["http://a.com/c"]
     else if u = "http://a.com/p2" then ["http://a.com/c"]
     else []⟩

/-- A site whose start page references a script asset whose body mentions a
further in-scope URL that appears nowhere as an HTML attribute. -/
def web6 : Web :=
  ⟨fun u =>
     if u = "http://a.com/" then some "html"
     else if u = "http://a.com/app.js" then some "see http://a.com/found page"
     else none,
   fun _ => true,
   fun u => if u = "http://a.com/" then ["http://a.com/app.js"] else []⟩

/-- A web on which every fetch fails (transport error or non-200 status). -/
def webFail : Web := ⟨fun _ => none, fun _ => true, fun _ => []⟩

/-- A network that answers every request with status 404 and a nil error. -/
def net404 : Net := ⟨fun _ => DoResult.response 404⟩

/-- A network that answers status 500 on one URL and 200 elsewhere. -/
def net7 : Net :=
  ⟨fun u => if u = "http://w.com/a" then DoResult.response 500 else DoResult.response 200⟩

theorem scriptEmit_eq (cfg : ScopeCfg) (st : CrawlState) (u : String) :
    scriptEmit cfg st u = { st with output := st.output ++ [scriptTag cfg u] } := by
  unfold scriptEmit scriptTag
  by_cases h : isInScope cfg.inScopeList cfg.outScopeList u = true <;> simp [h]

theorem foldl_scriptEmit_output (cfg : ScopeCfg) :
    ∀ (l : List String) (st : CrawlState),
      (l.foldl (scriptEmit cfg) st).output = st.output ++ l.map (scriptTag cfg)
  | [], st => by simp
  | u :: l, st => by
    rw [List.foldl_cons, foldl_scriptEmit_output cfg l, scriptEmit_eq]
    simp

theorem foldl_scriptEmit_rest (cfg : ScopeCfg) :
    ∀ (l : List String) (st : CrawlState),
      (l.foldl (scriptEmit cfg) st).visited = st.visited ∧
      (l.foldl (scriptEmit cfg) st).queue = st.queue ∧
      (l.foldl (scriptEmit cfg) st).fetched = st.fetched ∧
      (l.foldl (scriptEmit cfg) st).enqueues = st.enqueues
  | [], st => by simp
  | u :: l, st => by
    rw [List.foldl_cons, scriptEmit_eq]
    exact foldl_scriptEmit_rest cfg l _

theorem extractURLsFromScript_rest (cfg : ScopeCfg) (w : Web) (st : CrawlState)
    (scriptURL : String) :
    (extractURLsFromScript cfg w st scriptURL).visited = st.visited ∧
    (extractURLsFromScript cfg w st scriptURL).queue = st.queue ∧
    (extractURLsFromScript cfg w st scriptURL).fetched = st.fetched ∧
    (extractURLsFromScript cfg w st scriptURL).enqueues = st.enqueues := by
  unfold extractURLsFromScript
  cases w.fetch scriptURL with
  | none => exact ⟨rfl, rfl, rfl, rfl⟩
  | some body => exact foldl_scriptEmit_rest cfg (findURLs body) st

theorem handleCandidate_visited_fetched (cfg : ScopeCfg) (w : Web)
    (st : CrawlState) (u : String) :
    (handleCandidate cfg w st u).visited = st.visited ∧
    (handleCandidate cfg w st u).fetched = st.fetched := by
  unfold handleCandidate
  by_cases hc : isCodeFile u = true
  · simp only [hc, if_true]
    rcases extractURLsFromScript_rest cfg w
      (if isValidURL u then
        if isInScope cfg.inScopeList cfg.outScopeList u then
          { st with output := st.output ++ [(true, "In-scope: " ++ u)],
                    queue := st.queue ++ [u], enqueues := st.enqueues ++ [u] }
        else { st with output := st.output ++ [(false, "Out-Of-Scope: " ++ u)] }
       else st) u with ⟨hv, _, hf, _⟩
    rw [hv, hf]
    by_cases h1 : isValidURL u = true <;>
      by_cases h2 : isInScope cfg.inScopeList cfg.outScopeList u = true <;>
      simp [h1, h2]
  · simp only [Bool.not_eq_true] at hc
    simp only [hc, Bool.false_eq_true, if_false]
    by_cases h1 : isValidURL u = true <;>
      by_cases h2 : isInScope cfg.inScopeList cfg.outScopeList u = true <;>
      simp [h1, h2]

theorem foldl_handleCandidate_visited_fetched (cfg : ScopeCfg) (w : Web) :
    ∀ (l : List String) (st : CrawlState),
      (l.foldl (handleCandidate cfg w) st).visited = st.visited ∧
      (l.foldl (handleCandidate cfg w) st).fetched = st.fetched
  | [], _ => ⟨rfl, rfl⟩
  | u :: l, st => by
    rw [List.foldl_cons]
    have ih := foldl_handleCandidate_visited_fetched cfg w l (handleCandidate cfg w st u)
    have h := handleCandidate_visited_fetched cfg w st u
    exact ⟨ih.1.trans h.1, ih.2.trans h.2⟩

theorem processURL_of_mem (cfg : ScopeCfg) (w : Web) (st : CrawlState)
    (pageURL : String) (h : pageURL ∈ st.visited) :
    processURL cfg w st pageURL = st := by
  unfold processURL
  simp [h]

theorem processURL_visited_fetched_of_not_mem (cfg : ScopeCfg) (w : Web)
    (st : CrawlState) (pageURL : String) (h : pageURL ∉ st.visited) :
    (processURL cfg w st pageURL).visited = pageURL :: st.visited ∧
    (processURL cfg w st pageURL).fetched = st.fetched ++ [pageURL] := by
  unfold processURL
  simp only [h, if_false, if_neg h]
  cases w.fetch pageURL with
  | none => exact ⟨rfl, rfl⟩
  | some body =>
    by_cases hp : w.parseOK pageURL = true
    · simp only [hp, if_true]
      simpa using foldl_handleCandidate_visited_fetched cfg w (w.links pageURL)
        { st with visited := pageURL :: st.visited, fetched := st.fetched ++ [pageURL] }
    · simp only [Bool.not_eq_true] at hp
      simp [hp]

theorem fetchedOf_count_zero_of_mem :
    ∀ (evs visited : List String) (u : String), u ∈ visited →
      (fetchedOf visited evs).count u = 0
  | [], _, _, _ => rfl
  | v :: evs, visited, u, h => by
    unfold fetchedOf checkAndSet
    by_cases hv : v ∈ visited
    · simp only [hv, if_true]
      exact fetchedOf_count_zero_of_mem evs visited u h
    · simp only [hv, if_false, if_true]
      have hne : u ≠ v := fun he => hv (he ▸ h)
      rw [List.count_cons_of_ne hne]
      exact fetchedOf_count_zero_of_mem evs (v :: visited) u (List.mem_cons_of_mem v h)

theorem fetchedOf_count_le_one :
    ∀ (evs visited : List String) (u : String), (fetchedOf visited evs).count u ≤ 1
  | [], _, _ => by simp [fetchedOf]
  | v :: evs, visited, u => by
    unfold fetchedOf checkAndSet
    by_cases hv : v ∈ visited
    · simp only [hv, if_true]
      exact fetchedOf_count_le_one evs visited u
    · simp only [hv, if_false, if_true]
      by_cases huv : u = v
      · subst huv
        rw [List.count_cons_self]
        have h0 := fetchedOf_count_zero_of_mem evs (u :: visited) u (List.mem_cons_self u visited)
        omega
      · rw [List.count_cons_of_ne huv]
        exact fetchedOf_count_le_one evs (v :: visited) u

theorem processURL_inv (cfg : ScopeCfg) (w : Web) (st : CrawlState)
    (pageURL : String) (h : CrawlInv st) : CrawlInv (processURL cfg w st pageURL) := by
  by_cases hv : pageURL ∈ st.visited
  · rw [processURL_of_mem cfg w st pageURL hv]
    exact h
  · rcases processURL_visited_fetched_of_not_mem cfg w st pageURL hv with ⟨h1, h2⟩
    intro u
    rw [h1, h2]
    constructor
    · intro hm
      rcases List.mem_append.mp hm with hm | hm
      · exact List.mem_cons_of_mem _ ((h u).1 hm)
      · rw [List.mem_singleton.mp hm]
        exact List.mem_cons_self pageURL st.visited
    · rw [List.count_append]
      by_cases huv : u = pageURL
      · subst huv
        have hz : st.fetched.count u = 0 :=
          List.count_eq_zero_of_not_mem (fun hm => hv ((h u).1 hm))
        have ho : List.count u [u] = 1 := List.count_singleton_self u
        omega
      · have hz : List.count u [pageURL] = 0 :=
          List.count_eq_zero_of_not_mem (by simp [huv])
        have := (h u).2
        omega

theorem crawlSteps_inv (cfg : ScopeCfg) (w : Web) :
    ∀ (fuel : Nat) (st : CrawlState), CrawlInv st → CrawlInv (crawlSteps cfg w fuel st)
  | 0, _, h => h
  | n + 1, st, h => by
    unfold crawlSteps
    cases st.queue with
    | nil => exact h
    | cons u rest =>
      exact crawlSteps_inv cfg w n _ (processURL_inv cfg w _ u (fun v => h v))

theorem processURL_mono (cfg : ScopeCfg) (w : Web) (st : CrawlState)
    (v u : String) (h : u ∈ st.visited) :
    u ∈ (processURL cfg w st v).visited ∧
    (processURL cfg w st v).fetched.count u = st.fetched.count u := by
  by_cases hv : v ∈ st.visited
  · rw [processURL_of_mem cfg w st v hv]
    exact ⟨h, rfl⟩
  · rcases processURL_visited_fetched_of_not_mem cfg w st v hv with ⟨h1, h2⟩
    have hne : u ≠ v := fun he => hv (he ▸ h)
    refine ⟨?_, ?_⟩
    · rw [h1]
      exact List.mem_cons_of_mem _ h
    · rw [h2, List.count_append]
      have hz : List.count u [v] = 0 := List.count_eq_zero_of_not_mem (by simp [hne])
      omega

theorem crawlSteps_mono (cfg : ScopeCfg) (w : Web) (u : String) :
    ∀ (fuel : Nat) (st : CrawlState), u ∈ st.visited →
      u ∈ (crawlSteps cfg w fuel st).visited ∧
      (crawlSteps cfg w fuel st).fetched.count u = st.fetched.count u
  | 0, _, h => ⟨h, rfl⟩
  | n + 1, st, h => by
    unfold crawlSteps
    cases st.queue with
    | nil => exact ⟨h, rfl⟩
    | cons v rest =>
      have h1 := processURL_mono cfg w { st with queue := rest } v u h
      have h2 := crawlSteps_mono cfg w u n (processURL cfg w { st with queue := rest } v) h1.1
      exact ⟨h2.1, h2.2.trans h1.2⟩

theorem processURL_failure_eq (cfg : ScopeCfg) (w : Web) (st : CrawlState)
    (u : String) (hnv : u ∉ st.visited)
    (hf : w.fetch u = none ∨ w.parseOK u = false) :
    processURL cfg w st u =
      { st with visited := u :: st.visited, fetched := st.fetched ++ [u] } := by
  unfold processURL
  rw [if_neg hnv]
  rcases hf with hf | hf
  · rw [hf]
  · cases hw : w.fetch u with
    | none => rfl
    | some b => simp [hf]

theorem takeWhile_append_all {α : Type} (p : α → Bool) :
    ∀ (a b : List α), (∀ c ∈ a, p c = true) →
      (a ++ b).takeWhile p = a ++ b.takeWhile p
  | [], _, _ => rfl
  | x :: a, b, h => by
    rw [List.cons_append, List.takeWhile_cons_of_pos (h x (List.mem_cons_self x a)),
      takeWhile_append_all p a b (fun c hc => h c (List.mem_cons_of_mem x hc)),
      List.cons_append]

theorem dropWhile_append_all {α : Type} (p : α → Bool) :
    ∀ (a b : List α), (∀ c ∈ a, p c = true) →
      (a ++ b).dropWhile p = b.dropWhile p
  | [], _, _ => rfl
  | x :: a, b, h => by
    rw [List.cons_append, List.dropWhile_cons_of_pos (h x (List.mem_cons_self x a)),
      dropWhile_append_all p a b (fun c hc => h c (List.mem_cons_of_mem x hc))]

theorem mem_of_mem_takeWhile {α : Type} (p : α → Bool) :
    ∀ (l : List α) (a : α), a ∈ l.takeWhile p → a ∈ l
  | [], _, h => by simp [List.takeWhile] at h
  | x :: l, a, h => by
    rw [List.takeWhile_cons] at h
    by_cases hx : p x = true
    · rw [if_pos hx] at h
      rcases List.mem_cons.mp h with h | h
      · exact h ▸ List.mem_cons_self x l
      · exact List.mem_cons_of_mem x (mem_of_mem_takeWhile p l a h)
    · rw [if_neg hx] at h
      exact absurd h (List.not_mem_nil a)

theorem mem_of_mem_dropWhile {α : Type} (p : α → Bool) :
    ∀ (l : List α) (a : α), a ∈ l.dropWhile p → a ∈ l
  | [], _, h => by simp [List.dropWhile] at h
  | x :: l, a, h => by
    rw [List.dropWhile_cons] at h
    by_cases hx : p x = true
    · rw [if_pos hx] at h
      exact List.mem_cons_of_mem x (mem_of_mem_dropWhile p l a h)
    · rwa [if_neg hx] at h

theorem dropWhile_nil_or_head {α : Type} (p : α → Bool) :
    ∀ (l : List α), l.dropWhile p = [] ∨
      ∃ a t, l.dropWhile p = a :: t ∧ p a = false
  | [] => Or.inl rfl
  | x :: l => by
    rw [List.dropWhile_cons]
    by_cases hx : p x = true
    · rw [if_pos hx]
      exact dropWhile_nil_or_head p l
    · rw [if_neg hx]
      exact Or.inr ⟨x, l, rfl, Bool.not_eq_true (p x) ▸ eq_false_of_ne_true hx⟩

theorem scheme_chars_not_colon (s : List Char) (hv : validScheme s = true) :
    ∀ c ∈ s, notColon c = true := by
  match s with
  | [] => exact fun c hc => absurd hc (List.not_mem_nil c)
  | c0 :: rest =>
    unfold validScheme at hv
    rcases Bool.and_eq_true_iff.mp hv with ⟨h0, hr⟩
    intro c hc
    rcases List.mem_cons.mp hc with hc | hc
    · subst hc
      unfold notColon
      by_cases he : c = ':'
      · rw [he] at h0
        exact absurd h0 (by decide)
      · simp [he]
    · have := List.all_eq_true.mp hr c hc
      unfold notColon
      by_cases he : c = ':'
      · rw [he] at this
        exact absurd this (by decide)
      · simp [he]

theorem splitUserinfo_append (ui host : List Char)
    (hui : ui = [] ∨ ∃ l, ui = l ++ ['@'])
    (hh : ∀ c ∈ host, c ≠ '@') :
    splitUserinfo (ui ++ host) = (ui, host) := by
  unfold splitUserinfo
  have hhr : ∀ c ∈ host.reverse, (fun c => !(c = '@' : Bool)) c = true := by
    intro c hc
    have := hh c (List.mem_reverse.mp hc)
    simp [this]
  rw [List.reverse_append]
  rw [takeWhile_append_all _ host.reverse ui.reverse hhr,
    dropWhile_append_all _ host.reverse ui.reverse hhr]
  rcases hui with hui | ⟨l, hui⟩
  · subst hui
    simp
  · subst hui
    rw [List.reverse_append]
    simp

theorem parse_serialize_auth (p : URLc)
    (hs : p.scheme ≠ [])
    (hv : validScheme p.scheme = true)
    (ha : p.hasAuth = true)
    (hui : p.userinfo = [] ∨ ∃ l, p.userinfo = l ++ ['@'])
    (huiT : ∀ c ∈ p.userinfo, notAuthTerm c = true)
    (hhT : ∀ c ∈ p.host, notAuthTerm c = true)
    (hhA : ∀ c ∈ p.host, c ≠ '@')
    (hpath : p.path = [] ∨ ∃ c cs, p.path = c :: cs ∧ authTerm c = true) :
    parseChars (serializeChars p) = some p := by
  obtain ⟨S, hAuth, U, H, P⟩ := p
  simp only at hs hv hui huiT hhT hhA hpath
  subst ha
  unfold serializeChars
  rw [if_neg hs, if_pos (show true = true from rfl)]
  have hfull : (S ++ [':']) ++ ('/' :: '/' :: (U ++ H)) ++ P
      = S ++ (':' :: ('/' :: '/' :: ((U ++ H) ++ P))) := by
    simp
  rw [hfull]
  have hSnc : ∀ c ∈ S, notColon c = true := scheme_chars_not_colon S hv
  unfold parseChars
  rw [dropWhile_append_all notColon S _ hSnc,
    List.dropWhile_cons_of_neg (by decide : ¬ notColon ':' = true)]
  simp only
  rw [takeWhile_append_all notColon S _ hSnc,
    List.takeWhile_cons_of_neg (by decide : ¬ notColon ':' = true), List.append_nil]
  rw [if_neg hs, if_pos hv]
  unfold parseAfterScheme
  simp only [List.take, List.drop, if_true]
  have hUH : ∀ c ∈ U ++ H, notAuthTerm c = true := by
    intro c hc
    rcases List.mem_append.mp hc with hc | hc
    · exact huiT c hc
    · exact hhT c hc
  have htP : P.takeWhile notAuthTerm = [] := by
    rcases hpath with h | ⟨c, cs, hPc, hca⟩
    · rw [h]
      rfl
    · rw [hPc]
      refine List.takeWhile_cons_of_neg ?_
      unfold notAuthTerm
      simp [hca]
  have hdP : P.dropWhile notAuthTerm = P := by
    rcases hpath with h | ⟨c, cs, hPc, hca⟩
    · rw [h]
      rfl
    · rw [hPc]
      refine List.dropWhile_cons_of_neg ?_
      unfold notAuthTerm
      simp [hca]
  rw [takeWhile_append_all notAuthTerm (U ++ H) P hUH, htP, List.append_nil,
    dropWhile_append_all notAuthTerm (U ++ H) P hUH, hdP,
    splitUserinfo_append U H hui hhA]

theorem parse_serialize_noauth (p : URLc)
    (hs : p.scheme ≠ [])
    (hv : validScheme p.scheme = true)
    (ha : p.hasAuth = false)
    (hu : p.userinfo = []) (hh : p.host = [])
    (hpath : p.path.take 2 ≠ ['/', '/']) :
    parseChars (serializeChars p) = some p := by
  obtain ⟨S, hAuth, U, H, P⟩ := p
  simp only at hs hv hu hh hpath
  subst ha
  subst hu
  subst hh
  unfold serializeChars
  rw [if_neg hs, if_neg (show ¬ false = true by simp), List.append_nil]
  have hfull : (S ++ [':']) ++ P = S ++ (':' :: P) := by simp
  rw [hfull]
  have hSnc : ∀ c ∈ S, notColon c = true := scheme_chars_not_colon S hv
  unfold parseChars
  rw [dropWhile_append_all notColon S _ hSnc,
    List.dropWhile_cons_of_neg (by decide : ¬ notColon ':' = true)]
  simp only
  rw [takeWhile_append_all notColon S _ hSnc,
    List.takeWhile_cons_of_neg (by decide : ¬ notColon ':' = true), List.append_nil]
  rw [if_neg hs, if_pos hv]
  unfold parseAfterScheme
  rw [if_neg hpath]

theorem parseAfterScheme_scheme (sch rest : List Char) :
    (parseAfterScheme sch rest).scheme = sch := by
  unfold parseAfterScheme
  by_cases h2 : rest.take 2 = ['/', '/'] <;> simp [h2]

theorem parseAfterScheme_pos (sch rest : List Char) (h2 : rest.take 2 = ['/', '/']) :
    parseAfterScheme sch rest = ⟨sch, true,
      (splitUserinfo ((rest.drop 2).takeWhile notAuthTerm)).1,
      (splitUserinfo ((rest.drop 2).takeWhile notAuthTerm)).2,
      (rest.drop 2).dropWhile notAuthTerm⟩ := by
  unfold parseAfterScheme
  rw [if_pos h2]

theorem parseAfterScheme_neg (sch rest : List Char) (h2 : ¬ rest.take 2 = ['/', '/']) :
    parseAfterScheme sch rest = ⟨sch, false, [], [], rest⟩ := by
  unfold parseAfterScheme
  rw [if_neg h2]

theorem splitUserinfo_ui (auth : List Char) :
    (splitUserinfo auth).1 = (auth.reverse.dropWhile (fun c => !(c = '@' : Bool))).reverse := rfl

theorem splitUserinfo_host (auth : List Char) :
    (splitUserinfo auth).2 = (auth.reverse.takeWhile (fun c => !(c = '@' : Bool))).reverse := rfl

theorem splitUserinfo_ui_shape (auth : List Char) :
    (splitUserinfo auth).1 = [] ∨ ∃ l, (splitUserinfo auth).1 = l ++ ['@'] := by
  rw [splitUserinfo_ui]
  rcases dropWhile_nil_or_head (fun c => !(c = '@' : Bool)) auth.reverse with hd | ⟨a, t, hd, hqa⟩
  · rw [hd]
    exact Or.inl rfl
  · rw [hd]
    have ha : a = '@' := by
      by_cases he : a = '@'
      · exact he
      · simp [he] at hqa
    exact Or.inr ⟨t.reverse, by rw [ha, List.reverse_cons]⟩

theorem splitUserinfo_ui_mem (auth : List Char) :
    ∀ c ∈ (splitUserinfo auth).1, c ∈ auth := by
  rw [splitUserinfo_ui]
  intro c hc
  exact List.mem_reverse.mp (mem_of_mem_dropWhile _ _ c (List.mem_reverse.mp hc))

theorem splitUserinfo_host_mem (auth : List Char) :
    ∀ c ∈ (splitUserinfo auth).2, c ∈ auth := by
  rw [splitUserinfo_host]
  intro c hc
  exact List.mem_reverse.mp (mem_of_mem_takeWhile _ _ c (List.mem_reverse.mp hc))

theorem splitUserinfo_host_no_at (auth : List Char) :
    ∀ c ∈ (splitUserinfo auth).2, c ≠ '@' := by
  rw [splitUserinfo_host]
  intro c hc
  have h1 := List.mem_takeWhile_imp (List.mem_reverse.mp hc)
  by_cases he : c = '@'
  · rw [he] at h1
    exact absurd h1 (by decide)
  · exact he

theorem parseAfterScheme_authWF (sch rest : List Char) :
    AuthWF (parseAfterScheme sch rest) := by
  by_cases h2 : rest.take 2 = ['/', '/']
  · rw [parseAfterScheme_pos sch rest h2]
    constructor
    · intro _
      refine ⟨splitUserinfo_ui_shape _, ?_, ?_, splitUserinfo_host_no_at _, ?_⟩
      · intro c hc
        exact List.mem_takeWhile_imp (splitUserinfo_ui_mem _ c hc)
      · intro c hc
        exact List.mem_takeWhile_imp (splitUserinfo_host_mem _ c hc)
      · show List.dropWhile notAuthTerm (rest.drop 2) = [] ∨ _
        rcases dropWhile_nil_or_head notAuthTerm (rest.drop 2) with hd | ⟨a, t, hd, hqa⟩
        · exact Or.inl hd
        · refine Or.inr ⟨a, t, hd, ?_⟩
          unfold notAuthTerm at hqa
          simpa using hqa
    · intro h
      exact absurd h (by simp)
  · rw [parseAfterScheme_neg sch rest h2]
    exact ⟨fun h => absurd h (by simp), fun _ => ⟨rfl, rfl, h2⟩⟩

theorem parseChars_wf (cs : List Char) (p : URLc) (h : parseChars cs = some p) :
    (p.scheme = [] ∨ validScheme p.scheme = true) ∧ AuthWF p := by
  unfold parseChars at h
  cases hdrop : cs.dropWhile notColon with
  | nil =>
    rw [hdrop] at h
    have hp := Option.some.inj h
    subst hp
    exact ⟨Or.inl (parseAfterScheme_scheme [] cs), parseAfterScheme_authWF [] cs⟩
  | cons hd rest =>
    rw [hdrop] at h
    simp only at h
    by_cases hpre : cs.takeWhile notColon = []
    · rw [if_pos hpre] at h
      exact absurd h (by simp)
    · rw [if_neg hpre] at h
      by_cases hv : validScheme (cs.takeWhile notColon) = true
      · rw [if_pos hv] at h
        have hp := Option.some.inj h
        subst hp
        refine ⟨Or.inr ?_, parseAfterScheme_authWF _ rest⟩
        rw [parseAfterScheme_scheme]
        exact hv
      · rw [if_neg hv] at h
        have hp := Option.some.inj h
        subst hp
        exact ⟨Or.inl (parseAfterScheme_scheme [] cs), parseAfterScheme_authWF [] cs⟩

theorem parse_serialize_of_parsed (cs : List Char) (p q : URLc)
    (h : parseChars cs = some p)
    (ha : q.hasAuth = p.hasAuth) (hu : q.userinfo = p.userinfo)
    (hh : q.host = p.host) (hpt : q.path = p.path)
    (hs : q.scheme ≠ []) (hv : validScheme q.scheme = true) :
    parseChars (serializeChars q) = some q := by
  rcases parseChars_wf cs p h with ⟨_, hA1, hA2⟩
  cases hba : p.hasAuth
  · rcases hA2 hba with ⟨w1, w2, w3⟩
    exact parse_serialize_noauth q hs hv (ha.trans hba) (hu.trans w1) (hh.trans w2)
      (by rw [hpt]; exact w3)
  · rcases hA1 hba with ⟨w1, w2, w3, w4, w5⟩
    refine parse_serialize_auth q hs hv (ha.trans hba) ?_ ?_ ?_ ?_ ?_
    · rw [hu]
      exact w1
    · rw [hu]
      exact w2
    · rw [hh]
      exact w3
    · rw [hh]
      exact w4
    · rw [hpt]
      exact w5

theorem flipScheme_parse (u : String) (p : URLc) (hp : parseURL u = some p) :
    parseURL (flipScheme u) = some
      { p with scheme := if p.scheme = "http".data then "https".data else "http".data } := by
  unfold flipScheme
  rw [hp]
  show parseChars (serializeChars _) = _
  refine parse_serialize_of_parsed u.data p _ hp rfl rfl rfl rfl ?_ ?_
  · by_cases hcase : p.scheme = "http".data <;> simp [hcase]
  · by_cases hcase : p.scheme = "http".data <;> simp only [hcase, if_true, if_false] <;> decide

theorem resolveReference_noauth (base ref : URLc)
    (hs : ref.scheme = []) (ha : ref.hasAuth = false) :
    resolveReference base ref =
      (if ref.path = [] then base
       else if ref.path.take 1 = ['/'] then { base with path := ref.path }
       else { base with path := dirOf base.path ++ ref.path }) := by
  unfold resolveReference
  rw [if_neg (by simp [hs]), if_neg (by simp [ha])]

theorem take_one_eq_slash (l : List Char) (h : l.take 1 = ['/']) :
    ∃ t, l = '/' :: t := by
  cases l with
  | nil => exact absurd h (by simp)
  | cons c t =>
    rw [List.take_succ_cons, List.take_zero] at h
    have hc : c = '/' := by simpa using h
    exact ⟨t, by rw [hc]⟩

theorem parseURL_mk (cs : List Char) : parseURL (String.mk cs) = parseChars cs := rfl

theorem formatURL_eq_resolve (base href : String) (u b : URLc)
    (hu : parseURL href = some u) (hs : u.scheme = []) (hb : parseURL base = some b) :
    formatURL base href = String.mk (serializeChars (resolveReference b u)) := by
  simp [formatURL, hu, hb, hs]

theorem parse_serialize_base_path (P : List Char)
    (hpath : P = [] ∨ ∃ c cs, P = c :: cs ∧ authTerm c = true) :
    parseChars (serializeChars ⟨"http".data, true, [], "a.com".data, P⟩) =
      some ⟨"http".data, true, [], "a.com".data, P⟩ := by
  refine parse_serialize_auth _ ?_ ?_ rfl ?_ ?_ ?_ ?_ ?_
  · show ("http".data : List Char) ≠ []
    decide
  · show validScheme "http".data = true
    decide
  · exact Or.inl rfl
  · intro c hc
    exact absurd hc (List.not_mem_nil c)
  · show ∀ c ∈ "a.com".data, notAuthTerm c = true
    decide
  · show ∀ c ∈ "a.com".data, c ≠ '@'
    decide
  · exact hpath

theorem formatURL_host_of_base (r : String) (u : URLc)
    (hp : parseURL r = some u) (hs : u.scheme = []) (ha : u.hasAuth = false) :
    ∃ q, parseURL (formatURL "http://a.com/x/" r) = some q ∧ q.host = "a.com".data := by
  have hb : parseURL "http://a.com/x/" =
      some ⟨"http".data, true, [], "a.com".data, "/x/".data⟩ := by decide
  rw [formatURL_eq_resolve "http://a.com/x/" r u _ hp hs hb, parseURL_mk,
    resolveReference_noauth _ u hs ha]
  by_cases h0 : u.path = []
  · rw [if_pos h0]
    exact ⟨⟨"http".data, true, [], "a.com".data, "/x/".data⟩,
      parse_serialize_base_path "/x/".data (Or.inr ⟨'/', "x/".data, rfl, by decide⟩), rfl⟩
  · rw [if_neg h0]
    by_cases h1 : u.path.take 1 = ['/']
    · rw [if_pos h1]
      rcases take_one_eq_slash u.path h1 with ⟨t, ht⟩
      rw [ht]
      exact ⟨⟨"http".data, true, [], "a.com".data, '/' :: t⟩,
        parse_serialize_base_path ('/' :: t) (Or.inr ⟨'/', t, rfl, by decide⟩), rfl⟩
    · rw [if_neg h1]
      have hdir : dirOf "/x/".data = "/x/".data := by decide
      show ∃ q, parseChars (serializeChars
        ⟨"http".data, true, [], "a.com".data, dirOf "/x/".data ++ u.path⟩) = some q ∧
        q.host = "a.com".data
      rw [hdir]
      exact ⟨⟨"http".data, true, [], "a.com".data, "/x/".data ++ u.path⟩,
        parse_serialize_base_path ("/x/".data ++ u.path)
          (Or.inr ⟨'/', "x/".data ++ u.path, rfl, by decide⟩), rfl⟩

theorem isInScope_ignores_outScope (inS outS : List String) (u : String) (p : URLc)
    (hne : inS ≠ []) (hp : parseURL u = some p) :
    (isInScope inS outS u = true ↔
      inS.any (fun sc => hostHasSuffix p.host sc) = true) := by
  have hie : inS.isEmpty = false := by
    cases inS with
    | nil => exact absurd rfl hne
    | cons a l => rfl
  by_cases h1 : inS.any (fun sc => hostHasSuffix p.host sc) = true
  · simp [isInScope, hp, h1]
  · by_cases h2 : outS.any (fun sc => hostHasSuffix p.host sc) = true
    · simp [isInScope, hp, h1, h2]
    · simp [isInScope, hp, h1, h2, hie]

/-- C1 counterexample: with inScope a.com and outScope sub.a.com, the URL
http://sub.a.com/ has a host matching both lists; the claim requires the
outScope entry to veto (classify OutOfScope, so not InScope), but isInScope
returns true — the instantiated claim fails. -/
theorem isInScope_no_veto_counterexample :
    ¬ (isInScope ["a.com"] ["sub.a.com"] "http://sub.a.com/" = true ↔
        (List.any ["a.com"] (fun sc => hostHasSuffix "sub.a.com".data sc) = true ∧
         List.any ["sub.a.com"] (fun sc => hostHasSuffix "sub.a.com".data sc) = false)) := by
  decide

/-- C1 amended: for every policy with a non-empty inScope list and every URL
that parses, isInScope returns true exactly when the host matches some
inScope suffix; the outScope list can never veto an inScope match, because
the inScope loop returns first. -/
theorem isInScope_ignores_outscope_when_inscope_matches
    (inS outS : List String) (u : String) (p : URLc)
    (hne : inS ≠ []) (hp : parseURL u = some p) :
    (isInScope inS outS u = true ↔
      inS.any (fun sc => hostHasSuffix p.host sc) = true) :=
  isInScope_ignores_outScope inS outS u p hne hp

/-- C1 witness: the amended claim evaluated on the policy inScope a.com with
empty outScope at http://x.a.com/. -/
theorem isInScope_ignores_outscope_witness :
    (["a.com"] ≠ ([] : List String)) ∧
    (isInScope ["a.com"] [] "http://x.a.com/" = true ↔
      List.any ["a.com"] (fun sc => hostHasSuffix "x.a.com".data sc) = true) :=
  ⟨by decide, isInScope_ignores_outscope_when_inscope_matches ["a.com"] [] "http://x.a.com/"
      ⟨"http".data, true, [], "x.a.com".data, "/".data⟩ (by decide) (by decide)⟩

/-- C2: the critical section at the top of processURL is a pure check and
set — an invocation on an already visited URL returns the state unchanged
(no fetch) — and over any linearised sequence of such critical sections
starting from the empty Visited map, each distinct URL string reaches the
page fetch at most once. -/
theorem processURL_fetches_each_url_at_most_once :
    (∀ (cfg : ScopeCfg) (w : Web) (st : CrawlState) (u : String),
       u ∈ st.visited → processURL cfg w st u = st) ∧
    (∀ (evs : List String) (u : String), (fetchedOf [] evs).count u ≤ 1) :=
  ⟨fun cfg w st u h => processURL_of_mem cfg w st u h,
   fun evs u => fetchedOf_count_le_one evs [] u⟩

/-- C2 witness: the claim evaluated on a concrete already-visited state and a
concrete event sequence with a repeated URL. -/
theorem processURL_fetches_each_url_at_most_once_witness :
    processURL cfgA webFail ⟨["http://a.com/"], [], [], [], []⟩ "http://a.com/" =
      ⟨["http://a.com/"], [], [], [], []⟩ ∧
    (fetchedOf [] ["u", "u", "v"]).count "u" ≤ 1 :=
  ⟨processURL_fetches_each_url_at_most_once.1 cfgA webFail
      ⟨["http://a.com/"], [], [], [], []⟩ "http://a.com/" (by decide),
   processURL_fetches_each_url_at_most_once.2 ["u", "u", "v"] "u"⟩

/-- C3 counterexample: the enqueue in processURL has no visited check, so a
URL discovered on two pages is appended to the pending queue twice: crawling
web3 from http://a.com/ enqueues http://a.com/c once from each of the two
pages that link it. -/
theorem enqueued_twice_counterexample :
    ((crawl cfgA web3 "http://a.com/" 10).enqueues.count "http://a.com/c") = 2 := by
  decide

/-- C3 amended: a URL may be enqueued once per in-scope discovery (the
enqueue is not guarded by the visited set); deduplication happens when the
URL is dequeued — the check and set at the top of processURL ensures every
URL is fetched as a page at most once over the whole crawl. -/
theorem crawl_fetches_page_at_most_once (cfg : ScopeCfg) (w : Web)
    (startURL : String) (fuel : Nat) (u : String) :
    ((crawl cfg w startURL fuel).fetched.count u) ≤ 1 := by
  have hinit : CrawlInv (initState startURL) := by
    intro v
    constructor
    · intro hm
      exact absurd hm (List.not_mem_nil v)
    · show List.count v [] ≤ 1
      simp
  exact (crawlSteps_inv cfg w fuel (initState startURL) hinit u).2

/-- C4 counterexample: with the -inscope flag empty the scope list is the
single empty string, and with outscope evil.com the URL http://evil.com/x is
NOT classified OutOfScope as the claim requires — the empty entry is a
length-zero suffix matching every host, so the classifier returns InScope. -/
theorem empty_inscope_counterexample :
    ¬ (isInScope (scopeListOfFlag "") ["evil.com"] "http://evil.com/x" = false) := by
  decide

/-- C4 amended: the single empty entry produced by an empty -inscope flag is
a length-zero suffix that matches every host, not a missing constraint:
every URL that parses is classified InScope, whatever the outscope list
says. -/
theorem empty_inscope_flag_matches_all (outS : List String) (u : String)
    (p : URLc) (hp : parseURL u = some p) :
    isInScope (scopeListOfFlag "") outS u = true := by
  have hl : scopeListOfFlag "" = [""] := by decide
  rw [hl]
  have hsuf : hostHasSuffix p.host "" = true := by
    show List.isSuffixOf [] p.host = true
    exact List.isSuffixOf_nil_left
  simp [isInScope, hp, hsuf]

/-- C4 witness: the amended claim evaluated at http://other.org/ with
outscope evil.com. -/
theorem empty_inscope_flag_matches_all_witness :
    isInScope (scopeListOfFlag "") ["evil.com"] "http://other.org/" = true :=
  empty_inscope_flag_matches_all ["evil.com"] "http://other.org/"
    ⟨"http".data, true, [], "other.org".data, "/".data⟩ (by decide)

/-- C5: evaluation of the two writer variants on a sink stream holding one
out-of-scope record.  The writeToFiles variant (src/url-scan.go) produces the
two headed files with the record as a line of the out-of-scope file, as the
claim states; the single-file writeToFile variant (src/unnamed/part_000)
writes only the two header lines — its first channel loop drains and
discards the record, so the out-of-scope section can never contain anything,
contradicting the intent its own header and filter show. -/
theorem out_of_scope_record_dropped_by_part0_writer :
    writeToFile ["Out-Of-Scope: http://evil.com/x"] =
      ["--IN SCOPE URLS:---", "--OUT OF SCOPE URLS:---"] ∧
    writeToFiles [(false, "Out-Of-Scope: http://evil.com/x")] =
      (["--IN SCOPE URLS:---"],
       ["--OUT OF SCOPE URLS:---", "Out-Of-Scope: http://evil.com/x"]) := by
  constructor
  · decide
  · decide

/-- C6 counterexample: crawling web6, the URL http://a.com/found that occurs
only inside the fetched script asset is classified and emitted to the sink,
but it is never pushed into the Frontier and never fetched as a page, even
though it is in scope and unvisited — so it is not treated like an ordinary
candidate as the claim states. -/
theorem script_url_not_crawled_counterexample :
    ((true, "In-scope: http://a.com/found") ∈ (crawl cfgA web6 "http://a.com/" 6).output) ∧
    "http://a.com/found" ∉ (crawl cfgA web6 "http://a.com/" 6).enqueues ∧
    "http://a.com/found" ∉ (crawl cfgA web6 "http://a.com/" 6).fetched := by
  refine ⟨by decide, by decide, by decide⟩

/-- C6 amended: every absolute http or https substring found in a fetched
code asset is classified and emitted to the Output Sink (one record per
occurrence, in order), but extractURLsFromScript never validates it and
never touches the queue, the enqueue log, the visited set or the page fetch
log — script-discovered URLs are not pushed into the Frontier. -/
theorem script_urls_emitted_but_not_enqueued (cfg : ScopeCfg) (w : Web)
    (st : CrawlState) (scriptURL body : String)
    (h : w.fetch scriptURL = some body) :
    (extractURLsFromScript cfg w st scriptURL).queue = st.queue ∧
    (extractURLsFromScript cfg w st scriptURL).enqueues = st.enqueues ∧
    (extractURLsFromScript cfg w st scriptURL).visited = st.visited ∧
    (extractURLsFromScript cfg w st scriptURL).fetched = st.fetched ∧
    (extractURLsFromScript cfg w st scriptURL).output =
      st.output ++ (findURLs body).map (scriptTag cfg) := by
  unfold extractURLsFromScript
  rw [h]
  rcases foldl_scriptEmit_rest cfg (findURLs body) st with ⟨h1, h2, h3, h4⟩
  exact ⟨h2, h4, h1, h3, foldl_scriptEmit_output cfg (findURLs body) st⟩

/-- C6 witness: the amended claim evaluated on the concrete script asset of
web6 from the initial state. -/
theorem script_urls_emitted_but_not_enqueued_witness :
    (extractURLsFromScript cfgA web6 (initState "s") "http://a.com/app.js").queue =
      (initState "s").queue :=
  (script_urls_emitted_but_not_enqueued cfgA web6 (initState "s")
    "http://a.com/app.js" "see http://a.com/found page" (by decide)).1

theorem isOK_eq_true_iff (r : DoResult) : isOK r = true ↔ r = DoResult.response 200 := by
  cases r with
  | failure => simp [isOK]
  | response st => simp [isOK]

/-- C7: fetchURL performs at most two network attempts; when the first
request succeeds with status 200 there is no retry and the response is
returned; otherwise exactly one retry is made at the URL with its scheme
flipped between http and https, and that second result is returned as is —
no backoff, no further attempts. -/
theorem fetchURL_retry_policy (net : Net) (u : String) (p : URLc)
    (hp : parseURL u = some p) :
    (fetchAttempts net u).length ≤ 2 ∧
    (net.doReq u = DoResult.response 200 →
      fetchAttempts net u = [u] ∧ fetchURL net u = FetchResult.resp 200) ∧
    (net.doReq u ≠ DoResult.response 200 →
      fetchAttempts net u = [u, flipScheme u] ∧
      fetchURL net u = (match net.doReq (flipScheme u) with
                        | DoResult.failure => FetchResult.err
                        | DoResult.response st => FetchResult.resp st)) ∧
    (∃ q, parseURL (flipScheme u) = some q ∧
      q.scheme = (if p.scheme = "http".data then "https".data else "http".data) ∧
      (p.scheme = "http".data → q.scheme = "https".data) ∧
      (p.scheme = "https".data → q.scheme = "http".data) ∧
      q.hasAuth = p.hasAuth ∧ q.userinfo = p.userinfo ∧
      q.host = p.host ∧ q.path = p.path) := by
  refine ⟨?_, ?_, ?_, ?_⟩
  · unfold fetchAttempts
    by_cases hok : isOK (net.doReq u) = true <;> simp [hok]
  · intro h200
    have hok : isOK (net.doReq u) = true := (isOK_eq_true_iff _).mpr h200
    unfold fetchAttempts fetchURL
    rw [if_pos hok, if_pos hok]
    exact ⟨rfl, rfl⟩
  · intro hne
    have hok : ¬ isOK (net.doReq u) = true := fun hh => hne ((isOK_eq_true_iff _).mp hh)
    unfold fetchAttempts fetchURL
    rw [if_neg hok, if_neg hok]
    exact ⟨rfl, rfl⟩
  · refine ⟨_, flipScheme_parse u p hp, rfl, ?_, ?_, rfl, rfl, rfl, rfl⟩
    · intro hh
      show (if p.scheme = "http".data then "https".data else "http".data) = "https".data
      rw [if_pos hh]
    · intro hh
      show (if p.scheme = "http".data then "https".data else "http".data) = "http".data
      refine if_neg (fun he => ?_)
      rw [hh] at he
      exact absurd he (by decide)

/-- C7 witness: on net7 the first attempt at http://w.com/a answers 500, so
exactly the two attempts http://w.com/a then https://w.com/a are made. -/
theorem fetchURL_retry_policy_witness :
    (fetchAttempts net7 "http://w.com/a").length ≤ 2 ∧
    fetchAttempts net7 "http://w.com/a" = ["http://w.com/a", "https://w.com/a"] :=
  ⟨(fetchURL_retry_policy net7 "http://w.com/a"
      ⟨"http".data, true, [], "w.com".data, "/a".data⟩ (by decide)).1,
   by decide⟩

/-- C8 counterexample: on a network answering 404 everywhere, the final
outcome of fetchURL is the non-200 status 404 with a nil error — not the
explicit error the claim requires for every failed fetch. -/
theorem fetchURL_nil_error_counterexample :
    fetchURL net404 "http://a.com/x" = FetchResult.resp 404 ∧
    FetchResult.resp 404 ≠ FetchResult.err := by
  refine ⟨by decide, by decide⟩

/-- C8 amended: fetchURL returns a non-nil error exactly when the first
attempt was not a 200 success and the retry suffered a transport failure; a
non-200 status on the retry comes back with a nil error, so the caller must
also inspect the status code, as processURL does. -/
theorem fetchURL_err_iff (net : Net) (u : String) :
    fetchURL net u = FetchResult.err ↔
      (net.doReq u ≠ DoResult.response 200 ∧
       net.doReq (flipScheme u) = DoResult.failure) := by
  unfold fetchURL
  by_cases hok : isOK (net.doReq u) = true
  · rw [if_pos hok]
    have h200 : net.doReq u = DoResult.response 200 := (isOK_eq_true_iff _).mp hok
    simp [h200]
  · rw [if_neg hok]
    have hne : net.doReq u ≠ DoResult.response 200 :=
      fun he => hok ((isOK_eq_true_iff _).mpr he)
    cases hr : net.doReq (flipScheme u) with
    | failure => simp [hne]
    | response st => simp [hne]

/-- C9 counterexample: the network-path reference //b.com/y is a relative
reference (it has no scheme), yet resolving it against http://a.com/x/ via
formatURL yields http://b.com/y, whose host is b.com, not a.com. -/
theorem formatURL_network_path_counterexample :
    parseURL "//b.com/y" = some ⟨[], true, [], "b.com".data, "/y".data⟩ ∧
    formatURL "http://a.com/x/" "//b.com/y" = "http://b.com/y" ∧
    parseURL "http://b.com/y" = some ⟨"http".data, true, [], "b.com".data, "/y".data⟩ ∧
    "b.com".data ≠ "a.com".data := by
  refine ⟨by decide, by decide, by decide, by decide⟩

/-- C9 amended: for every relative reference without an authority component
(that is, every relative reference other than a network-path reference
//host/...), resolving against the base http://a.com/x/ via formatURL and
reparsing the result yields an absolute URL whose host equals a.com. -/
theorem formatURL_relative_resolves_to_base_host (r : String) (u : URLc)
    (hp : parseURL r = some u) (hs : u.scheme = []) (ha : u.hasAuth = false) :
    ∃ q, parseURL (formatURL "http://a.com/x/" r) = some q ∧ q.host = "a.com".data :=
  formatURL_host_of_base r u hp hs ha

/-- C9 witness: resolving the relative reference b against the base. -/
theorem formatURL_relative_resolves_witness :
    ∃ q, parseURL (formatURL "http://a.com/x/" "b") = some q ∧ q.host = "a.com".data :=
  formatURL_relative_resolves_to_base_host "b" ⟨[], false, [], [], "b".data⟩
    (by decide) rfl rfl

/-- C10: when an unvisited URL is dequeued and its fetch fails (transport
error or non-200 after the retry, modelled as fetch returning none) or its
body fails to parse as HTML, processURL returns having changed nothing
except marking the URL visited and logging the one page fetch — no record is
emitted and nothing is enqueued — and from then on, in any continuation of
the crawl, a URL already in the visited set is never fetched as a page
again. -/
theorem processURL_failure_sticky (cfg : ScopeCfg) (w : Web) (st : CrawlState)
    (u : String) (hnv : u ∉ st.visited)
    (hf : w.fetch u = none ∨ w.parseOK u = false) :
    processURL cfg w st u =
      { st with visited := u :: st.visited, fetched := st.fetched ++ [u] } ∧
    (∀ (fuel : Nat) (t : CrawlState), u ∈ t.visited →
      u ∈ (crawlSteps cfg w fuel t).visited ∧
      (crawlSteps cfg w fuel t).fetched.count u = t.fetched.count u) :=
  ⟨processURL_failure_eq cfg w st u hnv hf,
   fun fuel t ht => crawlSteps_mono cfg w u fuel t ht⟩

/-- C10 witness: a concrete failing fetch from the initial state marks the
URL visited, logs the attempt, and emits and enqueues nothing. -/
theorem processURL_failure_sticky_witness :
    processURL cfgA webFail (initState "http://f.com/") "http://f.com/" =
      ⟨["http://f.com/"], ["http://f.com/"], ["http://f.com/"], [], []⟩ :=
  (processURL_failure_sticky cfgA webFail (initState "http://f.com/") "http://f.com/"
    (by decide) (Or.inl rfl)).1

end UrlCrawler
